import Mathlib

/-!
Verification of the `safe-arch` x86_64 SIMD wrapper layer
(`src/safe-arch/src/x86_64/wrappers.rs`).

The wrappers operate on a bounded sequence through its raw backing storage,
which we embed as a list of bytes (`List Nat`, each entry a byte value).
A hardware vector (`__m256i` / `__m128i`) is embedded as a list of 32
(resp. 16) bytes.  Lane-structured operations (`set1_epi32`, gather) view
those bytes in little-endian 4-byte groups, matching the x86 layout.

Element types `T` enter only through their byte size `E = size_of(T)`
(`AsBytes`/`FromBytes` mean `T` is plain bytes), so each wrapper takes `E`
as an explicit parameter where the Rust code takes the type parameter `T`.

Loads and the gather take the slice by shared reference and return it
unchanged next to the loaded vector; stores return the updated slice.
-/

/-- Backing storage of a `BoundedSlice<T, BOUND>`: the committed capacity
bytes (`BOUND * size_of(T)` of them) plus the logical length, which the
wrappers never consult. -/
structure BoundedSlice where
  bytes : List Nat
  logicalLen : Nat

/-- Modelled from the spec: the bounded-sequence accessor (`get_slice` /
`get_slice_mut`, defined in the external `bounded_utils` crate) hands out
the full committed capacity span of `declared_bound * elem_size` bytes,
independent of the logical length. -/
def BoundedSlice.get_slice (s : BoundedSlice) : List Nat := s.bytes

/-- Unaligned vector load: the `n` bytes starting at byte offset `off`
(embedding of `_mm256_loadu_si256` / `_mm_loadu_si128` at offset `off`). -/
def readBytes (mem : List Nat) (off n : Nat) : List Nat := (mem.drop off).take n

/-- Unaligned vector store: overwrite the `v.length` bytes starting at byte
offset `off` (embedding of `_mm256_storeu_si256` / `_mm_storeu_si128`). -/
def writeBytes (mem : List Nat) (off : Nat) (v : List Nat) : List Nat :=
  mem.take off ++ (v ++ mem.drop (off + v.length))

/-- Modelled from the spec: `CheckLengthsSimd<T, S, O, V>::CHECK_GE`
(declared in the crate root, which is not under `src/`): holds iff
`O * E + V <= S * E` where `E = size_of(T)`. -/
def checkLengthsSimd (E S O V : Nat) : Bool := decide (O * E + V ≤ S * E)

/-- Modelled from the spec: `CheckPow2<N>::IS_POW2` (declared in the crate
root): holds iff `N` is a power of two. -/
def checkPow2 (N : Nat) : Bool := N != 0 && (N &&& (N - 1)) == 0

/-- Modelled from the spec: `CheckPow2Size<T, V>::IS_POW2` (declared in the
crate root): the element byte size `E` must evenly tile the vector width
`V`. -/
def checkPow2Size (E V : Nat) : Bool := E != 0 && V % E == 0

/-- Modelled from the spec: `CheckSameSize<T, SCALE>::SAME_SIZE` (declared
in the crate root): the gather scale must equal `size_of(T)`. -/
def checkSameSize (E scale : Nat) : Bool := E == scale

/-- Bit pattern of `VALUE_BOUND as i8 - 1`: wrapping narrowing of
`VALUE_BOUND` to 8 bits followed by a wrapping decrement. -/
def mask8 (V : Nat) : Nat := (V % 256 + 255) % 256

/-- Bit pattern of a bound cast `as i32` minus one: wrapping narrowing to
32 bits followed by a wrapping decrement (used by `_mm256_set1_epi32` in
the masked u32 stores and by the gather's offset mask). -/
def mask32 (V : Nat) : Nat := (V % 4294967296 + 4294967295) % 4294967296

/-- `_mm256_set1_epi8`: broadcast one byte to all 32 byte lanes. -/
def _mm256_set1_epi8 (b : Nat) : List Nat := List.replicate 32 b

/-- `_mm_set1_epi8`: broadcast one byte to all 16 byte lanes. -/
def _mm_set1_epi8 (b : Nat) : List Nat := List.replicate 16 b

/-- Little-endian byte decomposition of a 32-bit lane value. -/
def bytesOfU32 (m : Nat) : List Nat :=
  [m % 256, m / 256 % 256, m / 65536 % 256, m / 16777216 % 256]

/-- `_mm256_set1_epi32`: broadcast one 32-bit lane to all 8 lanes (byte
view, little-endian). -/
def _mm256_set1_epi32 (m : Nat) : List Nat :=
  bytesOfU32 m ++ bytesOfU32 m ++ bytesOfU32 m ++ bytesOfU32 m ++
  bytesOfU32 m ++ bytesOfU32 m ++ bytesOfU32 m ++ bytesOfU32 m

/-- `_mm_set1_epi32`: broadcast one 32-bit lane to all 4 lanes (byte view,
little-endian). -/
def _mm_set1_epi32 (m : Nat) : List Nat :=
  bytesOfU32 m ++ bytesOfU32 m ++ bytesOfU32 m ++ bytesOfU32 m

/-- `_mm256_and_si256`: bitwise AND, which acts independently on each byte. -/
def _mm256_and_si256 (a b : List Nat) : List Nat := List.zipWith Nat.land a b

/-- `_mm_and_si128`: bitwise AND, which acts independently on each byte. -/
def _mm_and_si128 (a b : List Nat) : List Nat := List.zipWith Nat.land a b

/-- `_mm256_load<T, SLICE_BOUND, START_BOUND>`: read 32 bytes at byte
offset `E * start` of the backing storage (`E = size_of(T)`); the slice is
taken by shared reference, hence returned unchanged. -/
def _mm256_load (E : Nat) (data : BoundedSlice) (start : Nat) :
    BoundedSlice × List Nat :=
  (data, readBytes data.get_slice (E * start) 32)

/-- `_mm256_store<T, SLICE_BOUND, START_BOUND>`: overwrite the 32 bytes at
byte offset `E * start` of the backing storage with `value`. -/
def _mm256_store (E : Nat) (data : BoundedSlice) (start : Nat)
    (value : List Nat) : BoundedSlice :=
  { data with bytes := writeBytes data.get_slice (E * start) value }

/-- `_mm256_store_masked_u8<SLICE_BOUND, START_BOUND, VALUE_BOUND>`: AND
the vector with the broadcast byte `VALUE_BOUND as i8 - 1`, then store the
32 bytes at byte offset `start` (elements are single bytes). -/
def _mm256_store_masked_u8 (VALUE_BOUND : Nat) (data : BoundedSlice)
    (start : Nat) (value : List Nat) : BoundedSlice :=
  { data with bytes := writeBytes data.get_slice start (_mm256_and_si256 (_mm256_set1_epi8 (mask8 VALUE_BOUND)) value) }

/-- `_mm256_store_masked_u32<SLICE_BOUND, START_BOUND, VALUE_BOUND>`: AND
the vector with the broadcast 32-bit lane `VALUE_BOUND as i32 - 1`, then
store the 32 bytes at byte offset `4 * start` (elements are 4 bytes). -/
def _mm256_store_masked_u32 (VALUE_BOUND : Nat) (data : BoundedSlice)
    (start : Nat) (value : List Nat) : BoundedSlice :=
  { data with bytes := writeBytes data.get_slice (4 * start) (_mm256_and_si256 (_mm256_set1_epi32 (mask32 VALUE_BOUND)) value) }

/-- `_mm256_masked_i32gather<T, SCALE, ARRAY_BOUND>`: mask every 32-bit
offset lane with `ARRAY_BOUND as i32 - 1`, then gather one 32-bit load per
lane from byte address `index * SCALE` (the intrinsic
`_mm256_i32gather_epi32` loads a 4-byte dword per lane).  The slice is
taken by shared reference, hence returned unchanged. -/
def _mm256_masked_i32gather (SCALE ARRAY_BOUND : Nat) (slice : BoundedSlice)
    (offsets : List Nat) : BoundedSlice × List (List Nat) :=
  (slice, offsets.map fun o =>
    readBytes slice.get_slice (Nat.land o (mask32 ARRAY_BOUND) * SCALE) 4)

/-- Byte addresses touched by one gather lane with (already unmasked) lane
offset `o`: `_mm256_i32gather_epi32` loads the 4-byte dword at byte address
`index * SCALE`, where `index` is the offset lane ANDed with
`ARRAY_BOUND as i32 - 1`. -/
def gatherLaneAddrs (SCALE ARRAY_BOUND o : Nat) : List Nat :=
  [Nat.land o (mask32 ARRAY_BOUND) * SCALE,
   Nat.land o (mask32 ARRAY_BOUND) * SCALE + 1,
   Nat.land o (mask32 ARRAY_BOUND) * SCALE + 2,
   Nat.land o (mask32 ARRAY_BOUND) * SCALE + 3]

/-- `_mm_load<T, SLICE_BOUND, START_BOUND>`: read 16 bytes at byte offset
`E * start`; the slice is returned unchanged. -/
def _mm_load (E : Nat) (data : BoundedSlice) (start : Nat) :
    BoundedSlice × List Nat :=
  (data, readBytes data.get_slice (E * start) 16)

/-- `_mm_store<T, SLICE_BOUND, START_BOUND>`: overwrite the 16 bytes at
byte offset `E * start` with `value`. -/
def _mm_store (E : Nat) (data : BoundedSlice) (start : Nat)
    (value : List Nat) : BoundedSlice :=
  { data with bytes := writeBytes data.get_slice (E * start) value }

/-- `_mm_store_masked_u8<SLICE_BOUND, START_BOUND, VALUE_BOUND>`: AND with
the broadcast byte `VALUE_BOUND as i8 - 1`, then store 16 bytes at byte
offset `start`. -/
def _mm_store_masked_u8 (VALUE_BOUND : Nat) (data : BoundedSlice)
    (start : Nat) (value : List Nat) : BoundedSlice :=
  { data with bytes := writeBytes data.get_slice start (_mm_and_si128 (_mm_set1_epi8 (mask8 VALUE_BOUND)) value) }

/-- `_mm_store_masked_u32<SLICE_BOUND, START_BOUND, VALUE_BOUND>`: AND with
the broadcast 32-bit lane `VALUE_BOUND as i32 - 1`, then store 16 bytes at
byte offset `4 * start`. -/
def _mm_store_masked_u32 (VALUE_BOUND : Nat) (data : BoundedSlice)
    (start : Nat) (value : List Nat) : BoundedSlice :=
  { data with bytes := writeBytes data.get_slice (4 * start) (_mm_and_si128 (_mm_set1_epi32 (mask32 VALUE_BOUND)) value) }

/-- The `u32` element stored at element index `j` of a byte-viewed backing
storage (little-endian). -/
def elem32At (mem : List Nat) (j : Nat) : Nat :=
  mem.getD (4 * j) 0 + 256 * mem.getD (4 * j + 1) 0 +
  65536 * mem.getD (4 * j + 2) 0 + 16777216 * mem.getD (4 * j + 3) 0

example : mask8 16 = 15 := by decide
example : mask8 256 = 255 := by decide
example : Nat.land 15 (mask32 16) * 1 + 3 = 18 := by decide
example : checkLengthsSimd 4 8 4 16 = true := by decide
example : checkLengthsSimd 4 8 5 16 = false := by decide

/-! ### Helper lemmas about the byte-level memory primitives -/

lemma length_writeBytes (mem v : List Nat) (o : Nat)
    (h : o + v.length ≤ mem.length) :
    (writeBytes mem o v).length = mem.length := by
  simp only [writeBytes, List.length_append, List.length_take, List.length_drop]
  omega

lemma getD_writeBytes_inside (mem v : List Nat) (o i : Nat)
    (hi : i < v.length) (h : o + v.length ≤ mem.length) :
    (writeBytes mem o v).getD (o + i) 0 = v.getD i 0 := by
  have hto : (mem.take o).length = o := by
    rw [List.length_take]; omega
  unfold writeBytes
  rw [List.getD_append_right _ _ _ _ (by omega)]
  rw [hto, Nat.add_sub_cancel_left]
  exact List.getD_append _ _ _ _ hi

lemma getD_writeBytes_outside (mem v : List Nat) (o j : Nat)
    (h : o + v.length ≤ mem.length) (hj : j < o ∨ o + v.length ≤ j) :
    (writeBytes mem o v).getD j 0 = mem.getD j 0 := by
  have hto : (mem.take o).length = o := by
    rw [List.length_take]; omega
  rcases hj with hj | hj
  · unfold writeBytes
    rw [List.getD_append _ _ _ _ (by omega)]
    rw [List.getD_eq_getElem?_getD, List.getD_eq_getElem?_getD,
      List.getElem?_take, if_pos hj]
  · unfold writeBytes
    have h1 : (mem.take o).length ≤ j := by rw [hto]; omega
    rw [List.getD_append_right _ _ _ _ h1, hto]
    have h2 : v.length ≤ j - o := by omega
    rw [List.getD_append_right _ _ _ _ h2]
    rw [List.getD_eq_getElem?_getD, List.getD_eq_getElem?_getD,
      List.getElem?_drop]
    have e : o + v.length + (j - o - v.length) = j := by omega
    rw [e]

lemma length_readBytes (mem : List Nat) (o n : Nat)
    (h : o + n ≤ mem.length) :
    (readBytes mem o n).length = n := by
  simp only [readBytes, List.length_take, List.length_drop]
  omega

lemma getD_readBytes (mem : List Nat) (o n i : Nat) (hi : i < n) :
    (readBytes mem o n).getD i 0 = mem.getD (o + i) 0 := by
  unfold readBytes
  rw [List.getD_eq_getElem?_getD, List.getD_eq_getElem?_getD,
    List.getElem?_take, if_pos hi, List.getElem?_drop]

lemma readBytes_writeBytes (mem v : List Nat) (o : Nat)
    (h : o + v.length ≤ mem.length) :
    readBytes (writeBytes mem o v) o v.length = v := by
  have hto : (mem.take o).length = o := by
    rw [List.length_take]; omega
  have hdrop : (writeBytes mem o v).drop o = v ++ mem.drop (o + v.length) := by
    have := List.drop_left (mem.take o) (v ++ mem.drop (o + v.length))
    rw [hto] at this
    simpa [writeBytes] using this
  unfold readBytes
  rw [hdrop]
  exact List.take_left v _

lemma readBytes_eq_of_agree (m m' : List Nat) (o n : Nat)
    (hm : o + n ≤ m.length) (hm' : o + n ≤ m'.length)
    (hag : ∀ j, o ≤ j → j < o + n → m.getD j 0 = m'.getD j 0) :
    readBytes m o n = readBytes m' o n := by
  apply List.ext_getElem
  · rw [length_readBytes _ _ _ hm, length_readBytes _ _ _ hm']
  · intro i h1 h2
    have hi : i < n := by
      have := length_readBytes m o n hm
      omega
    rw [← List.getD_eq_getElem _ 0 h1, ← List.getD_eq_getElem _ 0 h2,
      getD_readBytes _ _ _ _ hi, getD_readBytes _ _ _ _ hi]
    exact hag (o + i) (by omega) (by omega)

lemma getD_zipWith_land_le (p v : List Nat) (i : Nat) :
    (List.zipWith Nat.land p v).getD i 0 ≤ p.getD i 0 := by
  induction p generalizing v i with
  | nil => simp [List.getD]
  | cons a p ih =>
    cases v with
    | nil => simp [List.getD]
    | cons b v =>
      cases i with
      | zero => simpa using Nat.and_le_left
      | succ i => simpa using ih v i

lemma zipWith_land_replicate (n m : Nat) (v : List Nat) :
    List.zipWith Nat.land (List.replicate n m) v =
      (v.take n).map (fun b => Nat.land m b) := by
  induction n generalizing v with
  | zero => simp
  | succ n ih =>
    cases v with
    | nil => simp
    | cons b v => simp [List.replicate_succ, ih]

/-! ### Arithmetic facts about the broadcast mask constants -/

lemma land_eq_and (a b : Nat) : Nat.land a b = a &&& b := rfl

lemma mask8_lt (V : Nat) (h : 1 ≤ V) : mask8 V < V := by
  unfold mask8; omega

lemma mask32_lt (V : Nat) (h : 1 ≤ V) : mask32 V < V := by
  unfold mask32; omega

lemma mask8_two_pow_le (k : Nat) (hk : k ≤ 8) : mask8 (2 ^ k) = 2 ^ k - 1 := by
  interval_cases k <;> decide

lemma mask8_two_pow_ge (k : Nat) (hk : 8 ≤ k) : mask8 (2 ^ k) = 255 := by
  obtain ⟨c, hc⟩ : (256 : Nat) ∣ 2 ^ k := by
    have h1 : (2 : Nat) ^ 8 ∣ 2 ^ k := pow_dvd_pow 2 hk
    simpa using h1
  unfold mask8
  omega

lemma land_mask8_two_pow (k b : Nat) (hb : b < 256) :
    Nat.land (mask8 (2 ^ k)) b = b % 2 ^ k := by
  rw [land_eq_and, Nat.and_comm]
  rcases le_or_lt k 8 with hk | hk
  · rw [mask8_two_pow_le k hk]
    exact Nat.and_pow_two_sub_one_eq_mod b k
  · rw [mask8_two_pow_ge k (le_of_lt hk)]
    have h255 : (255 : Nat) = 2 ^ 8 - 1 := by norm_num
    have h256 : (256 : Nat) ≤ 2 ^ k := by
      calc (256 : Nat) = 2 ^ 8 := by norm_num
        _ ≤ 2 ^ k := Nat.pow_le_pow_right (by norm_num) (by omega)
    rw [h255, Nat.and_pow_two_sub_one_eq_mod]
    rw [Nat.mod_eq_of_lt (by omega : b < 2 ^ 8),
      Nat.mod_eq_of_lt (by omega : b < 2 ^ k)]

lemma land_mask8_add_wrap (k b : Nat) (hb : b < 256) :
    Nat.land (mask8 (2 ^ k)) ((b + 2 ^ k) % 256) = Nat.land (mask8 (2 ^ k)) b := by
  rw [land_mask8_two_pow _ _ (Nat.mod_lt _ (by norm_num)),
    land_mask8_two_pow _ _ hb]
  rcases le_or_lt k 8 with hk | hk
  · have hdvd : (2 : Nat) ^ k ∣ 256 := by
      have h1 : (2 : Nat) ^ k ∣ 2 ^ 8 := pow_dvd_pow 2 hk
      simpa using h1
    rw [Nat.mod_mod_of_dvd _ hdvd, Nat.add_mod_right]
  · obtain ⟨c, hc⟩ : (256 : Nat) ∣ 2 ^ k := by
      have h1 : (2 : Nat) ^ 8 ∣ 2 ^ k := pow_dvd_pow 2 (le_of_lt hk)
      simpa using h1
    have e : (b + 2 ^ k) % 256 = b := by omega
    rw [e]

lemma u32_compose (x : Nat) (hx : x < 4294967296) :
    x % 256 + 256 * (x / 256 % 256) + 65536 * (x / 65536 % 256) +
      16777216 * (x / 16777216 % 256) = x := by
  omega

lemma mask32_lt_two_pow_32 (V : Nat) : mask32 V < 4294967296 := by
  unfold mask32; omega

lemma getD_set1_epi32_256 (m q r : Nat) (hq : q < 8) (hr : r < 4) :
    (_mm256_set1_epi32 m).getD (4 * q + r) 0 = (bytesOfU32 m).getD r 0 := by
  interval_cases q <;> interval_cases r <;>
    simp [_mm256_set1_epi32, bytesOfU32]

lemma getD_set1_epi32_128 (m q r : Nat) (hq : q < 4) (hr : r < 4) :
    (_mm_set1_epi32 m).getD (4 * q + r) 0 = (bytesOfU32 m).getD r 0 := by
  interval_cases q <;> interval_cases r <;>
    simp [_mm_set1_epi32, bytesOfU32]

@[simp] lemma bytes_mk (b : List Nat) (l : Nat) :
    (BoundedSlice.mk b l).bytes = b := rfl

@[simp] lemma get_slice_mk (b : List Nat) (l : Nat) :
    (BoundedSlice.mk b l).get_slice = b := rfl

@[simp] lemma length_set1_epi32_256 (m : Nat) :
    (_mm256_set1_epi32 m).length = 32 := by
  simp [_mm256_set1_epi32, bytesOfU32]

@[simp] lemma length_set1_epi32_128 (m : Nat) :
    (_mm_set1_epi32 m).length = 16 := by
  simp [_mm_set1_epi32, bytesOfU32]

/-! ### Claim theorems -/

/-- C1: for every unmasked load/store wrapper instantiation with bounds
satisfying `O*E + V <= S*E` (`V = 32` for the `_mm256` family, `V = 16` for
the `_mm` family) and every runtime offset `start < O`, the access window
`[E*start, E*start + V)` lies within `[0, S*E)`; the load result is
determined by the bytes of that window alone, and the store changes no
byte outside it — so no byte outside the declared capacity is read or
written. -/
theorem wrappers_access_within_capacity (E S O start : Nat) :
    (O * E + 32 ≤ S * E → start < O →
      E * start + 32 ≤ S * E ∧
      (∀ s s' : BoundedSlice, s.bytes.length = S * E →
        s'.bytes.length = S * E →
        (∀ j, E * start ≤ j → j < E * start + 32 →
          s.bytes.getD j 0 = s'.bytes.getD j 0) →
        (_mm256_load E s start).2 = (_mm256_load E s' start).2) ∧
      (∀ (s : BoundedSlice) (v : List Nat), s.bytes.length = S * E →
        v.length = 32 → ∀ j, j < E * start ∨ E * start + 32 ≤ j →
        (_mm256_store E s start v).bytes.getD j 0 = s.bytes.getD j 0)) ∧
    (O * E + 16 ≤ S * E → start < O →
      E * start + 16 ≤ S * E ∧
      (∀ s s' : BoundedSlice, s.bytes.length = S * E →
        s'.bytes.length = S * E →
        (∀ j, E * start ≤ j → j < E * start + 16 →
          s.bytes.getD j 0 = s'.bytes.getD j 0) →
        (_mm_load E s start).2 = (_mm_load E s' start).2) ∧
      (∀ (s : BoundedSlice) (v : List Nat), s.bytes.length = S * E →
        v.length = 16 → ∀ j, j < E * start ∨ E * start + 16 ≤ j →
        (_mm_store E s start v).bytes.getD j 0 = s.bytes.getD j 0)) := by
  constructor
  · intro hcheck hstart
    have hmul : E * start ≤ E * O := Nat.mul_le_mul_left E (le_of_lt hstart)
    have hcomm : E * O = O * E := Nat.mul_comm E O
    have hin : E * start + 32 ≤ S * E := by omega
    refine ⟨hin, ?_, ?_⟩
    · intro s s' hs hs' hag
      simp only [_mm256_load, BoundedSlice.get_slice]
      exact readBytes_eq_of_agree _ _ _ _ (by omega) (by omega) hag
    · intro s v hs hv j hj
      simp only [_mm256_store, BoundedSlice.get_slice]
      exact getD_writeBytes_outside _ _ _ _ (by omega) (by omega)
  · intro hcheck hstart
    have hmul : E * start ≤ E * O := Nat.mul_le_mul_left E (le_of_lt hstart)
    have hcomm : E * O = O * E := Nat.mul_comm E O
    have hin : E * start + 16 ≤ S * E := by omega
    refine ⟨hin, ?_, ?_⟩
    · intro s s' hs hs' hag
      simp only [_mm_load, BoundedSlice.get_slice]
      exact readBytes_eq_of_agree _ _ _ _ (by omega) (by omega) hag
    · intro s v hs hv j hj
      simp only [_mm_store, BoundedSlice.get_slice]
      exact getD_writeBytes_outside _ _ _ _ (by omega) (by omega)

/-- Witness for C1: the 32-byte family at `E=1, S=48, O=16, start=3` and
the 16-byte family at the spec's scenario `E=4, S=8, O=4, start=3`. -/
theorem wrappers_access_within_capacity_witness :
    1 * 3 + 32 ≤ 48 * 1 ∧ 4 * 3 + 16 ≤ 8 * 4 :=
  ⟨((wrappers_access_within_capacity 1 48 16 3).1 (by decide) (by decide)).1,
   ((wrappers_access_within_capacity 4 8 4 3).2 (by decide) (by decide)).1⟩

/-- C2: whenever `O*E + V > S*E`, the `CheckLengthsSimd` predicate — the
`CHECK_GE` assertion every load/store and masked-store wrapper evaluates
at instantiation, with `E` the element byte size (the lane byte width, 1
or 4, for the masked stores) and `V` the wrapper's vector width — is
false, so that combination of bounds cannot be instantiated.  Moreover no
wrapper has a runtime bounds check or a runtime error path: on every
input, in range or not, each wrapper unconditionally performs its single
hardware operation, as stated by the unconditional defining equations in
the second conjunct. -/
theorem checkLengthsSimd_rejects_violating_bounds (E S O V : Nat)
    (h : S * E < O * E + V) :
    checkLengthsSimd E S O V = false ∧
    (∀ (s : BoundedSlice) (start : Nat) (v : List Nat),
      (_mm256_load E s start).2 = readBytes s.get_slice (E * start) 32 ∧
      (_mm_load E s start).2 = readBytes s.get_slice (E * start) 16 ∧
      (_mm256_store E s start v).bytes = writeBytes s.get_slice (E * start) v ∧
      (_mm_store E s start v).bytes = writeBytes s.get_slice (E * start) v ∧
      (_mm256_store_masked_u8 V s start v).bytes =
        writeBytes s.get_slice start
          (_mm256_and_si256 (_mm256_set1_epi8 (mask8 V)) v) ∧
      (_mm256_store_masked_u32 V s start v).bytes =
        writeBytes s.get_slice (4 * start)
          (_mm256_and_si256 (_mm256_set1_epi32 (mask32 V)) v) ∧
      (_mm_store_masked_u8 V s start v).bytes =
        writeBytes s.get_slice start
          (_mm_and_si128 (_mm_set1_epi8 (mask8 V)) v) ∧
      (_mm_store_masked_u32 V s start v).bytes =
        writeBytes s.get_slice (4 * start)
          (_mm_and_si128 (_mm_set1_epi32 (mask32 V)) v)) := by
  constructor
  · simp only [checkLengthsSimd, decide_eq_false_iff_not]
    omega
  · intro s start v
    exact ⟨rfl, rfl, rfl, rfl, rfl, rfl, rfl, rfl⟩

/-- Witness for C2: the spec's concrete scenario `E=4, S=8, O=5, V=16`
(`5*4 + 16 = 36 > 32`) is rejected. -/
theorem checkLengthsSimd_rejects_violating_bounds_witness :
    checkLengthsSimd 4 8 5 16 = false :=
  (checkLengthsSimd_rejects_violating_bounds 4 8 5 16 (by decide)).1

/-- C3 (failing-input evaluation): the gather wrapper is instantiable at
element byte size 1 (`T = u8`, `SCALE = 1`) with `ARRAY_BOUND = 16` (a
power of two, so `CheckPow2` and `CheckSameSize` both pass), yet for
offset lane value 15 the dword load of `_mm256_i32gather_epi32` touches
byte address 18, outside the capacity `ARRAY_BOUND * size_of(T) = 16` —
contradicting the claim and the code's own SAFETY comment. -/
theorem gather_reads_past_capacity_for_small_elems :
    checkPow2 16 = true ∧ checkSameSize 1 1 = true ∧
    (gatherLaneAddrs 1 16 15).getD 3 0 = 18 ∧
    ¬ (gatherLaneAddrs 1 16 15).getD 3 0 < 16 * 1 := by
  decide

/-- C6: storing a vector at offset `start` and loading at the same offset
with the same bounds returns the vector unchanged, for both unmasked
store/load pairs — each family under exactly the in-bounds window its own
instantiability condition guarantees (32 bytes for the `_mm256` pair, 16
for the `_mm` pair). -/
theorem store_load_roundtrip (E : Nat) (s : BoundedSlice) (start : Nat)
    (v32 v16 : List Nat) (h32 : v32.length = 32) (h16 : v16.length = 16) :
    (E * start + 32 ≤ s.bytes.length →
      (_mm256_load E (_mm256_store E s start v32) start).2 = v32) ∧
    (E * start + 16 ≤ s.bytes.length →
      (_mm_load E (_mm_store E s start v16) start).2 = v16) := by
  constructor
  · intro hlen
    simp only [_mm256_load, _mm256_store, BoundedSlice.get_slice]
    have h := readBytes_writeBytes s.bytes v32 (E * start) (by omega)
    rw [h32] at h
    exact h
  · intro hlen
    simp only [_mm_load, _mm_store, BoundedSlice.get_slice]
    have h := readBytes_writeBytes s.bytes v16 (E * start) (by omega)
    rw [h16] at h
    exact h

/-- Witness for C6: a concrete 256-bit round trip, and a 16-byte round
trip at `E=4, S=8, start=3`, a case instantiable only for the `_mm`
family. -/
theorem store_load_roundtrip_witness :
    (_mm256_load 1 (_mm256_store 1 (BoundedSlice.mk (List.replicate 64 0) 64)
      2 (List.replicate 32 7)) 2).2 = List.replicate 32 7 ∧
    (_mm_load 4 (_mm_store 4 (BoundedSlice.mk (List.replicate 32 0) 8)
      3 (List.replicate 16 9)) 3).2 = List.replicate 16 9 :=
  ⟨(store_load_roundtrip 1 (BoundedSlice.mk (List.replicate 64 0) 64) 2
      (List.replicate 32 7) (List.replicate 16 9)
      (by simp) (by simp)).1 (by simp),
   (store_load_roundtrip 4 (BoundedSlice.mk (List.replicate 32 0) 8) 3
      (List.replicate 32 7) (List.replicate 16 9)
      (by simp) (by simp)).2 (by simp)⟩

/-- C7: a load returns exactly the `vector_width_bytes` (32 for
`_mm256_load`, 16 for `_mm_load`) of the backing storage starting at byte
offset `start * E` — each family under exactly the in-bounds window its
own instantiability condition guarantees. -/
theorem load_returns_exact_bytes (E : Nat) (s : BoundedSlice) (start : Nat) :
    (E * start + 32 ≤ s.bytes.length →
      (_mm256_load E s start).2.length = 32 ∧
      ∀ i, i < 32 →
        (_mm256_load E s start).2.getD i 0 = s.bytes.getD (E * start + i) 0) ∧
    (E * start + 16 ≤ s.bytes.length →
      (_mm_load E s start).2.length = 16 ∧
      ∀ i, i < 16 →
        (_mm_load E s start).2.getD i 0 = s.bytes.getD (E * start + i) 0) := by
  constructor
  · intro hlen
    refine ⟨?_, ?_⟩
    · simp only [_mm256_load, BoundedSlice.get_slice]
      exact length_readBytes _ _ _ hlen
    · intro i hi
      simp only [_mm256_load, BoundedSlice.get_slice]
      exact getD_readBytes _ _ _ _ hi
  · intro hlen
    refine ⟨?_, ?_⟩
    · simp only [_mm_load, BoundedSlice.get_slice]
      exact length_readBytes _ _ _ hlen
    · intro i hi
      simp only [_mm_load, BoundedSlice.get_slice]
      exact getD_readBytes _ _ _ _ hi

/-- Witness for C7: a 256-bit load on a concrete slice has 32 bytes, and
a 16-byte load at `E=4, S=8, start=3` — a case instantiable only for the
`_mm` family — has 16 bytes. -/
theorem load_returns_exact_bytes_witness :
    (_mm256_load 1 (BoundedSlice.mk (List.replicate 40 3) 40) 2).2.length = 32 ∧
    (_mm_load 4 (BoundedSlice.mk (List.replicate 32 0) 8) 3).2.length = 16 :=
  ⟨((load_returns_exact_bytes 1 (BoundedSlice.mk (List.replicate 40 3) 40) 2).1
      (by simp)).1,
   ((load_returns_exact_bytes 4 (BoundedSlice.mk (List.replicate 32 0) 8) 3).2
      (by simp)).1⟩

/-- C8: each store wrapper (unmasked or masked) modifies exactly its
vector-width window starting at `offset * elem_size` and leaves every
other byte unchanged — each wrapper under exactly the in-bounds window
its own instantiability condition guarantees; the loads and the gather
leave the slice entirely unchanged. -/
theorem store_frame_and_read_purity (E SCALE B : Nat) (s : BoundedSlice)
    (start : Nat) (v32 v16 offsets : List Nat)
    (h32 : v32.length = 32) (h16 : v16.length = 16) :
    (E * start + 16 ≤ s.bytes.length →
      (_mm_store E s start v16).bytes.length = s.bytes.length ∧
      (∀ j, j < E * start ∨ E * start + 16 ≤ j →
        (_mm_store E s start v16).bytes.getD j 0 = s.bytes.getD j 0) ∧
      (∀ i, i < 16 →
        (_mm_store E s start v16).bytes.getD (E * start + i) 0 =
          v16.getD i 0)) ∧
    (E * start + 32 ≤ s.bytes.length →
      (_mm256_store E s start v32).bytes.length = s.bytes.length ∧
      (∀ j, j < E * start ∨ E * start + 32 ≤ j →
        (_mm256_store E s start v32).bytes.getD j 0 = s.bytes.getD j 0) ∧
      (∀ i, i < 32 →
        (_mm256_store E s start v32).bytes.getD (E * start + i) 0 =
          v32.getD i 0)) ∧
    (start + 32 ≤ s.bytes.length →
      ∀ j, j < start ∨ start + 32 ≤ j →
        (_mm256_store_masked_u8 B s start v32).bytes.getD j 0 =
          s.bytes.getD j 0) ∧
    (4 * start + 32 ≤ s.bytes.length →
      ∀ j, j < 4 * start ∨ 4 * start + 32 ≤ j →
        (_mm256_store_masked_u32 B s start v32).bytes.getD j 0 =
          s.bytes.getD j 0) ∧
    (start + 16 ≤ s.bytes.length →
      ∀ j, j < start ∨ start + 16 ≤ j →
        (_mm_store_masked_u8 B s start v16).bytes.getD j 0 =
          s.bytes.getD j 0) ∧
    (4 * start + 16 ≤ s.bytes.length →
      ∀ j, j < 4 * start ∨ 4 * start + 16 ≤ j →
        (_mm_store_masked_u32 B s start v16).bytes.getD j 0 =
          s.bytes.getD j 0) ∧
    ((_mm256_load E s start).1 = s ∧ (_mm_load E s start).1 = s ∧
      (_mm256_masked_i32gather SCALE B s offsets).1 = s) := by
  have hw8 : (_mm256_and_si256 (_mm256_set1_epi8 (mask8 B)) v32).length = 32 := by
    simp [_mm256_and_si256, _mm256_set1_epi8, h32]
  have hw32 : (_mm256_and_si256 (_mm256_set1_epi32 (mask32 B)) v32).length = 32 := by
    simp [_mm256_and_si256, h32]
  have hw8s : (_mm_and_si128 (_mm_set1_epi8 (mask8 B)) v16).length = 16 := by
    simp [_mm_and_si128, _mm_set1_epi8, h16]
  have hw32s : (_mm_and_si128 (_mm_set1_epi32 (mask32 B)) v16).length = 16 := by
    simp [_mm_and_si128, h16]
  refine ⟨?_, ?_, ?_, ?_, ?_, ?_, rfl, rfl, rfl⟩
  · intro hlen
    refine ⟨?_, ?_, ?_⟩
    · simp only [_mm_store, BoundedSlice.get_slice]
      exact length_writeBytes _ _ _ (by omega)
    · intro j hj
      simp only [_mm_store, BoundedSlice.get_slice]
      exact getD_writeBytes_outside _ _ _ _ (by omega) (by omega)
    · intro i hi
      simp only [_mm_store, BoundedSlice.get_slice]
      exact getD_writeBytes_inside _ _ _ _ (by omega) (by omega)
  · intro hlen
    refine ⟨?_, ?_, ?_⟩
    · simp only [_mm256_store, BoundedSlice.get_slice]
      exact length_writeBytes _ _ _ (by omega)
    · intro j hj
      simp only [_mm256_store, BoundedSlice.get_slice]
      exact getD_writeBytes_outside _ _ _ _ (by omega) (by omega)
    · intro i hi
      simp only [_mm256_store, BoundedSlice.get_slice]
      exact getD_writeBytes_inside _ _ _ _ (by omega) (by omega)
  · intro hlen j hj
    simp only [_mm256_store_masked_u8, BoundedSlice.get_slice]
    exact getD_writeBytes_outside _ _ _ _ (by omega) (by omega)
  · intro hlen j hj
    simp only [_mm256_store_masked_u32, BoundedSlice.get_slice]
    exact getD_writeBytes_outside _ _ _ _ (by omega) (by omega)
  · intro hlen j hj
    simp only [_mm_store_masked_u8, BoundedSlice.get_slice]
    exact getD_writeBytes_outside _ _ _ _ (by omega) (by omega)
  · intro hlen j hj
    simp only [_mm_store_masked_u32, BoundedSlice.get_slice]
    exact getD_writeBytes_outside _ _ _ _ (by omega) (by omega)

/-- Witness for C8: a 16-byte store at `E=4, S=8, start=3` (instantiable
only for the `_mm` family) preserves the backing length, and a masked
byte store at `S=48, start=15` (where `4*start+32` would exceed the
capacity) leaves byte 0 unchanged. -/
theorem store_frame_and_read_purity_witness :
    (_mm_store 4 (BoundedSlice.mk (List.replicate 32 0) 8) 3
      (List.replicate 16 9)).bytes.length =
      (BoundedSlice.mk (List.replicate 32 0) 8).bytes.length ∧
    (_mm256_store_masked_u8 8 (BoundedSlice.mk (List.replicate 48 0) 48) 15
      (List.replicate 32 7)).bytes.getD 0 0 =
      (BoundedSlice.mk (List.replicate 48 0) 48).bytes.getD 0 0 :=
  ⟨((store_frame_and_read_purity 4 4 8 (BoundedSlice.mk (List.replicate 32 0) 8)
      3 (List.replicate 32 7) (List.replicate 16 9) []
      (by simp) (by simp)).1 (by simp)).1,
   ((store_frame_and_read_purity 1 4 8 (BoundedSlice.mk (List.replicate 48 0) 48)
      15 (List.replicate 32 7) (List.replicate 16 9) []
      (by simp) (by simp)).2.2.1 (by simp)) 0 (by decide)⟩

/-- C9: every wrapper's result depends only on the backing bytes, the
offset and the input vector, never on the slice's logical length: two
slices with identical backing bytes produce identical outputs and
identical resulting backing bytes under every wrapper. -/
theorem wrappers_ignore_logical_length (E V SCALE B : Nat)
    (s s' : BoundedSlice) (h : s.bytes = s'.bytes) (start : Nat)
    (v offsets : List Nat) :
    (_mm256_load E s start).2 = (_mm256_load E s' start).2 ∧
    (_mm_load E s start).2 = (_mm_load E s' start).2 ∧
    (_mm256_masked_i32gather SCALE B s offsets).2 =
      (_mm256_masked_i32gather SCALE B s' offsets).2 ∧
    (_mm256_store E s start v).bytes = (_mm256_store E s' start v).bytes ∧
    (_mm_store E s start v).bytes = (_mm_store E s' start v).bytes ∧
    (_mm256_store_masked_u8 V s start v).bytes =
      (_mm256_store_masked_u8 V s' start v).bytes ∧
    (_mm256_store_masked_u32 V s start v).bytes =
      (_mm256_store_masked_u32 V s' start v).bytes ∧
    (_mm_store_masked_u8 V s start v).bytes =
      (_mm_store_masked_u8 V s' start v).bytes ∧
    (_mm_store_masked_u32 V s start v).bytes =
      (_mm_store_masked_u32 V s' start v).bytes := by
  simp only [_mm256_load, _mm_load, _mm256_masked_i32gather, _mm256_store,
    _mm_store, _mm256_store_masked_u8, _mm256_store_masked_u32,
    _mm_store_masked_u8, _mm_store_masked_u32, BoundedSlice.get_slice, h]
  simp

/-- Witness for C9: two slices with the same backing bytes but different
logical lengths load identically. -/
theorem wrappers_ignore_logical_length_witness :
    (_mm256_load 1 (BoundedSlice.mk (List.replicate 40 3) 40) 0).2 =
      (_mm256_load 1 (BoundedSlice.mk (List.replicate 40 3) 7) 0).2 :=
  (wrappers_ignore_logical_length 1 16 4 8
    (BoundedSlice.mk (List.replicate 40 3) 40)
    (BoundedSlice.mk (List.replicate 40 3) 7) rfl 0 [] []).1

/-! ### Masked-vector value lemmas -/

lemma getD_replicate_lt (n a i : Nat) (hi : i < n) :
    (List.replicate n a).getD i 0 = a := by
  rw [List.getD_eq_getElem?_getD, List.getElem?_replicate, if_pos hi]
  rfl

lemma bytesOfU32_getD_zero (m : Nat) : (bytesOfU32 m).getD 0 0 = m % 256 := rfl

lemma bytesOfU32_getD_one (m : Nat) :
    (bytesOfU32 m).getD 1 0 = m / 256 % 256 := rfl

lemma bytesOfU32_getD_two (m : Nat) :
    (bytesOfU32 m).getD 2 0 = m / 65536 % 256 := rfl

lemma bytesOfU32_getD_three (m : Nat) :
    (bytesOfU32 m).getD 3 0 = m / 16777216 % 256 := rfl

lemma getD_map_land (m : Nat) (v : List Nat) (i : Nat) (hi : i < v.length) :
    (v.map fun b => Nat.land m b).getD i 0 = Nat.land m (v.getD i 0) := by
  induction v generalizing i with
  | nil => simp at hi
  | cons a v ih =>
    cases i with
    | zero => rfl
    | succ i =>
      have hi2 : i < v.length := by simpa using hi
      simpa using ih i hi2

lemma masked32_lane_lt_256 (V : Nat) (hV1 : 1 ≤ V) (v : List Nat) (q : Nat)
    (hq : q < 8) :
    (_mm256_and_si256 (_mm256_set1_epi32 (mask32 V)) v).getD (4 * q) 0 +
      256 * (_mm256_and_si256 (_mm256_set1_epi32 (mask32 V)) v).getD (4 * q + 1) 0 +
      65536 * (_mm256_and_si256 (_mm256_set1_epi32 (mask32 V)) v).getD (4 * q + 2) 0 +
      16777216 * (_mm256_and_si256 (_mm256_set1_epi32 (mask32 V)) v).getD (4 * q + 3) 0
      < V := by
  have b0 := getD_zipWith_land_le (_mm256_set1_epi32 (mask32 V)) v (4 * q)
  have b1 := getD_zipWith_land_le (_mm256_set1_epi32 (mask32 V)) v (4 * q + 1)
  have b2 := getD_zipWith_land_le (_mm256_set1_epi32 (mask32 V)) v (4 * q + 2)
  have b3 := getD_zipWith_land_le (_mm256_set1_epi32 (mask32 V)) v (4 * q + 3)
  have p0 := (getD_set1_epi32_256 (mask32 V) q 0 hq (by norm_num)).trans
    (bytesOfU32_getD_zero (mask32 V))
  have p1 := (getD_set1_epi32_256 (mask32 V) q 1 hq (by norm_num)).trans
    (bytesOfU32_getD_one (mask32 V))
  have p2 := (getD_set1_epi32_256 (mask32 V) q 2 hq (by norm_num)).trans
    (bytesOfU32_getD_two (mask32 V))
  have p3 := (getD_set1_epi32_256 (mask32 V) q 3 hq (by norm_num)).trans
    (bytesOfU32_getD_three (mask32 V))
  rw [Nat.add_zero] at p0
  rw [p0] at b0
  rw [p1] at b1
  rw [p2] at b2
  rw [p3] at b3
  have hcomp := u32_compose (mask32 V) (mask32_lt_two_pow_32 V)
  have hm : mask32 V < V := mask32_lt V hV1
  simp only [_mm256_and_si256] at b0 b1 b2 b3 ⊢
  omega

lemma masked32_lane_lt_128 (V : Nat) (hV1 : 1 ≤ V) (v : List Nat) (q : Nat)
    (hq : q < 4) :
    (_mm_and_si128 (_mm_set1_epi32 (mask32 V)) v).getD (4 * q) 0 +
      256 * (_mm_and_si128 (_mm_set1_epi32 (mask32 V)) v).getD (4 * q + 1) 0 +
      65536 * (_mm_and_si128 (_mm_set1_epi32 (mask32 V)) v).getD (4 * q + 2) 0 +
      16777216 * (_mm_and_si128 (_mm_set1_epi32 (mask32 V)) v).getD (4 * q + 3) 0
      < V := by
  have b0 := getD_zipWith_land_le (_mm_set1_epi32 (mask32 V)) v (4 * q)
  have b1 := getD_zipWith_land_le (_mm_set1_epi32 (mask32 V)) v (4 * q + 1)
  have b2 := getD_zipWith_land_le (_mm_set1_epi32 (mask32 V)) v (4 * q + 2)
  have b3 := getD_zipWith_land_le (_mm_set1_epi32 (mask32 V)) v (4 * q + 3)
  have p0 := (getD_set1_epi32_128 (mask32 V) q 0 hq (by norm_num)).trans
    (bytesOfU32_getD_zero (mask32 V))
  have p1 := (getD_set1_epi32_128 (mask32 V) q 1 hq (by norm_num)).trans
    (bytesOfU32_getD_one (mask32 V))
  have p2 := (getD_set1_epi32_128 (mask32 V) q 2 hq (by norm_num)).trans
    (bytesOfU32_getD_two (mask32 V))
  have p3 := (getD_set1_epi32_128 (mask32 V) q 3 hq (by norm_num)).trans
    (bytesOfU32_getD_three (mask32 V))
  rw [Nat.add_zero] at p0
  rw [p0] at b0
  rw [p1] at b1
  rw [p2] at b2
  rw [p3] at b3
  have hcomp := u32_compose (mask32 V) (mask32_lt_two_pow_32 V)
  have hm : mask32 V < V := mask32_lt V hV1
  simp only [_mm_and_si128] at b0 b1 b2 b3 ⊢
  omega

lemma masked8_store_core (k n : Nat) (v : List Nat) (hv : v.length = n)
    (hb : ∀ b ∈ v, b < 256) (i : Nat) (hi : i < n) :
    (List.zipWith Nat.land (List.replicate n (mask8 (2 ^ k))) v).getD i 0 =
      v.getD i 0 % 2 ^ k := by
  have hvi : i < v.length := by omega
  rw [zipWith_land_replicate, List.take_of_length_le (by omega),
    getD_map_land (mask8 (2 ^ k)) v i hvi]
  have hmem : v.getD i 0 ∈ v := by
    rw [List.getD_eq_getElem v 0 hvi]
    exact List.getElem_mem hvi
  exact land_mask8_two_pow k _ (hb _ hmem)

lemma masked8_wrap_core (k n : Nat) (v : List Nat) (hv : v.length = n)
    (hb : ∀ b ∈ v, b < 256) :
    List.zipWith Nat.land (List.replicate n (mask8 (2 ^ k)))
        (v.map fun b => (b + 2 ^ k) % 256) =
      List.zipWith Nat.land (List.replicate n (mask8 (2 ^ k))) v := by
  rw [zipWith_land_replicate, zipWith_land_replicate]
  rw [List.take_of_length_le (by simp [hv]), List.take_of_length_le (by omega)]
  rw [List.map_map]
  refine List.map_congr_left fun b hbv => ?_
  show Nat.land (mask8 (2 ^ k)) ((b + 2 ^ k) % 256) = Nat.land (mask8 (2 ^ k)) b
  exact land_mask8_add_wrap k b (hb b hbv)

lemma getD_zipWith_land (p v : List Nat) (i : Nat) (hip : i < p.length)
    (hiv : i < v.length) :
    (List.zipWith Nat.land p v).getD i 0 = Nat.land (p.getD i 0) (v.getD i 0) := by
  induction p generalizing v i with
  | nil => simp at hip
  | cons a p ih =>
    cases v with
    | nil => simp at hiv
    | cons b v =>
      cases i with
      | zero => rfl
      | succ i =>
        have hp1 : i < p.length := by simpa using hip
        have hv1 : i < v.length := by simpa using hiv
        simpa using ih v i hp1 hv1

lemma getD_zipWith_land_le_right (p v : List Nat) (i : Nat) :
    (List.zipWith Nat.land p v).getD i 0 ≤ v.getD i 0 := by
  induction p generalizing v i with
  | nil => simp [List.getD]
  | cons a p ih =>
    cases v with
    | nil => simp [List.getD]
    | cons b v =>
      cases i with
      | zero => simpa using Nat.and_le_right
      | succ i => simpa using ih v i

lemma getD_lt_256 (v : List Nat) (hb : ∀ b ∈ v, b < 256) (i : Nat)
    (hi : i < v.length) : v.getD i 0 < 256 := by
  have hmem : v.getD i 0 ∈ v := by
    rw [List.getD_eq_getElem v 0 hi]
    exact List.getElem_mem hi
  exact hb _ hmem

lemma elem32At_lt (v : List Nat) (hb : ∀ b ∈ v, b < 256) (q : Nat)
    (hq : 4 * q + 3 < v.length) : elem32At v q < 4294967296 := by
  have b0 := getD_lt_256 v hb (4 * q) (by omega)
  have b1 := getD_lt_256 v hb (4 * q + 1) (by omega)
  have b2 := getD_lt_256 v hb (4 * q + 2) (by omega)
  have b3 := getD_lt_256 v hb (4 * q + 3) (by omega)
  simp only [elem32At]
  omega

lemma and_self_distrib (a b M : Nat) :
    (a &&& M) &&& (b &&& M) = (a &&& b) &&& M := by
  rw [Nat.and_assoc, ← Nat.and_assoc M b M, Nat.and_comm M b,
    Nat.and_assoc b M M, Nat.and_self, ← Nat.and_assoc]

lemma and_mod_pow_two (x y n : Nat) :
    (x &&& y) % 2 ^ n = (x % 2 ^ n) &&& (y % 2 ^ n) := by
  rw [← Nat.and_pow_two_sub_one_eq_mod x n, ← Nat.and_pow_two_sub_one_eq_mod y n,
    ← Nat.and_pow_two_sub_one_eq_mod (x &&& y) n]
  exact (and_self_distrib x y (2 ^ n - 1)).symm

lemma and_div_pow_two (x y n : Nat) :
    (x &&& y) / 2 ^ n = x / 2 ^ n &&& y / 2 ^ n := by
  induction n generalizing x y with
  | zero => simp
  | succ n ih =>
    rw [pow_succ, ← Nat.div_div_eq_div_mul, ← Nat.div_div_eq_div_mul,
      ← Nat.div_div_eq_div_mul, ih, Nat.and_div_two]

lemma land_digits_compose (M b0 b1 b2 b3 : Nat) (hM : M < 4294967296)
    (h0 : b0 < 256) (h1 : b1 < 256) (h2 : b2 < 256) (h3 : b3 < 256) :
    Nat.land (M % 256) b0 + 256 * Nat.land (M / 256 % 256) b1 +
      65536 * Nat.land (M / 65536 % 256) b2 +
      16777216 * Nat.land (M / 16777216 % 256) b3 =
      Nat.land M (b0 + 256 * b1 + 65536 * b2 + 16777216 * b3) := by
  simp only [land_eq_and]
  have hB0 : (b0 + 256 * b1 + 65536 * b2 + 16777216 * b3) % 256 = b0 := by omega
  have hB1 : (b0 + 256 * b1 + 65536 * b2 + 16777216 * b3) / 256 % 256 = b1 := by
    omega
  have hB2 : (b0 + 256 * b1 + 65536 * b2 + 16777216 * b3) / 65536 % 256 = b2 := by
    omega
  have hB3 : (b0 + 256 * b1 + 65536 * b2 + 16777216 * b3) / 16777216 % 256 = b3 := by
    omega
  have hMB : M &&& (b0 + 256 * b1 + 65536 * b2 + 16777216 * b3) < 4294967296 :=
    lt_of_le_of_lt Nat.and_le_left hM
  have d0 : (M &&& (b0 + 256 * b1 + 65536 * b2 + 16777216 * b3)) % 256 =
      (M % 256) &&& b0 := by
    have h := and_mod_pow_two M (b0 + 256 * b1 + 65536 * b2 + 16777216 * b3) 8
    norm_num at h
    rw [h, hB0]
  have d1 : (M &&& (b0 + 256 * b1 + 65536 * b2 + 16777216 * b3)) / 256 % 256 =
      (M / 256 % 256) &&& b1 := by
    have ha := and_div_pow_two M (b0 + 256 * b1 + 65536 * b2 + 16777216 * b3) 8
    have hb := and_mod_pow_two (M / 256)
      ((b0 + 256 * b1 + 65536 * b2 + 16777216 * b3) / 256) 8
    norm_num at ha hb
    rw [ha, hb, hB1]
  have d2 : (M &&& (b0 + 256 * b1 + 65536 * b2 + 16777216 * b3)) / 65536 % 256 =
      (M / 65536 % 256) &&& b2 := by
    have ha := and_div_pow_two M (b0 + 256 * b1 + 65536 * b2 + 16777216 * b3) 16
    have hb := and_mod_pow_two (M / 65536)
      ((b0 + 256 * b1 + 65536 * b2 + 16777216 * b3) / 65536) 8
    norm_num at ha hb
    rw [ha, hb, hB2]
  have d3 : (M &&& (b0 + 256 * b1 + 65536 * b2 + 16777216 * b3)) / 16777216 % 256 =
      (M / 16777216 % 256) &&& b3 := by
    have ha := and_div_pow_two M (b0 + 256 * b1 + 65536 * b2 + 16777216 * b3) 24
    have hb := and_mod_pow_two (M / 16777216)
      ((b0 + 256 * b1 + 65536 * b2 + 16777216 * b3) / 16777216) 8
    norm_num at ha hb
    rw [ha, hb, hB3]
  have hcomp := u32_compose
    (M &&& (b0 + 256 * b1 + 65536 * b2 + 16777216 * b3)) hMB
  rw [← d0, ← d1, ← d2, ← d3]
  exact hcomp

lemma mask32_two_pow_le (k : Nat) (hk : k ≤ 32) :
    mask32 (2 ^ k) = 2 ^ k - 1 := by
  have h1 : (1 : Nat) ≤ 2 ^ k := Nat.one_le_two_pow
  have h2 : (2 : Nat) ^ k ≤ 4294967296 := by
    calc (2 : Nat) ^ k ≤ 2 ^ 32 := Nat.pow_le_pow_right (by norm_num) hk
      _ = 4294967296 := by norm_num
  unfold mask32
  omega

lemma mask32_two_pow_ge (k : Nat) (hk : 32 ≤ k) :
    mask32 (2 ^ k) = 4294967295 := by
  obtain ⟨c, hc⟩ : (4294967296 : Nat) ∣ 2 ^ k := by
    have hdvd : (2 : Nat) ^ 32 ∣ 2 ^ k := pow_dvd_pow 2 hk
    have he : (2 : Nat) ^ 32 = 4294967296 := by norm_num
    rwa [he] at hdvd
  unfold mask32
  omega

lemma land_mask32_two_pow (k B : Nat) (hB : B < 4294967296) :
    Nat.land (mask32 (2 ^ k)) B = B % 2 ^ k := by
  rw [land_eq_and, Nat.and_comm]
  rcases le_or_lt k 32 with hk | hk
  · rw [mask32_two_pow_le k hk]
    exact Nat.and_pow_two_sub_one_eq_mod B k
  · rw [mask32_two_pow_ge k (le_of_lt hk)]
    have h1 : (4294967295 : Nat) = 2 ^ 32 - 1 := by norm_num
    rw [h1, Nat.and_pow_two_sub_one_eq_mod]
    have h2 : B < 2 ^ 32 := by
      calc B < 4294967296 := hB
        _ = 2 ^ 32 := by norm_num
    have h3 : B < 2 ^ k :=
      lt_of_lt_of_le h2 (Nat.pow_le_pow_right (by norm_num) (le_of_lt hk))
    rw [Nat.mod_eq_of_lt h2, Nat.mod_eq_of_lt h3]

lemma mod_wrap32 (k B : Nat) (hB : B < 4294967296) :
    (B + 2 ^ k) % 4294967296 % 2 ^ k = B % 2 ^ k := by
  rcases le_or_lt k 32 with hk | hk
  · have hdvd : (2 : Nat) ^ k ∣ 4294967296 := by
      have h1 : (2 : Nat) ^ k ∣ 2 ^ 32 := pow_dvd_pow 2 hk
      have he : (2 : Nat) ^ 32 = 4294967296 := by norm_num
      rwa [he] at h1
    rw [Nat.mod_mod_of_dvd _ hdvd, Nat.add_mod_right]
  · obtain ⟨c, hc⟩ : (4294967296 : Nat) ∣ 2 ^ k := by
      have h1 : (2 : Nat) ^ 32 ∣ 2 ^ k := pow_dvd_pow 2 (le_of_lt hk)
      have he : (2 : Nat) ^ 32 = 4294967296 := by norm_num
      rwa [he] at h1
    have e : (B + 2 ^ k) % 4294967296 = B := by omega
    rw [e]

lemma masked32_readback_256 (k : Nat) (v : List Nat) (hv : v.length = 32)
    (hb : ∀ b ∈ v, b < 256) (i : Nat) (hi : i < 8) :
    elem32At (_mm256_and_si256 (_mm256_set1_epi32 (mask32 (2 ^ k))) v) i =
      elem32At v i % 2 ^ k := by
  have hp : (_mm256_set1_epi32 (mask32 (2 ^ k))).length = 32 :=
    length_set1_epi32_256 _
  have w0 := getD_zipWith_land (_mm256_set1_epi32 (mask32 (2 ^ k))) v (4 * i)
    (by omega) (by omega)
  have w1 := getD_zipWith_land (_mm256_set1_epi32 (mask32 (2 ^ k))) v (4 * i + 1)
    (by omega) (by omega)
  have w2 := getD_zipWith_land (_mm256_set1_epi32 (mask32 (2 ^ k))) v (4 * i + 2)
    (by omega) (by omega)
  have w3 := getD_zipWith_land (_mm256_set1_epi32 (mask32 (2 ^ k))) v (4 * i + 3)
    (by omega) (by omega)
  have p0 := (getD_set1_epi32_256 (mask32 (2 ^ k)) i 0 hi (by norm_num)).trans
    (bytesOfU32_getD_zero (mask32 (2 ^ k)))
  rw [Nat.add_zero] at p0
  have p1 := (getD_set1_epi32_256 (mask32 (2 ^ k)) i 1 hi (by norm_num)).trans
    (bytesOfU32_getD_one (mask32 (2 ^ k)))
  have p2 := (getD_set1_epi32_256 (mask32 (2 ^ k)) i 2 hi (by norm_num)).trans
    (bytesOfU32_getD_two (mask32 (2 ^ k)))
  have p3 := (getD_set1_epi32_256 (mask32 (2 ^ k)) i 3 hi (by norm_num)).trans
    (bytesOfU32_getD_three (mask32 (2 ^ k)))
  rw [p0] at w0
  rw [p1] at w1
  rw [p2] at w2
  rw [p3] at w3
  have hb0 := getD_lt_256 v hb (4 * i) (by omega)
  have hb1 := getD_lt_256 v hb (4 * i + 1) (by omega)
  have hb2 := getD_lt_256 v hb (4 * i + 2) (by omega)
  have hb3 := getD_lt_256 v hb (4 * i + 3) (by omega)
  simp only [elem32At, _mm256_and_si256]
  rw [w0, w1, w2, w3]
  rw [land_digits_compose (mask32 (2 ^ k)) _ _ _ _ (mask32_lt_two_pow_32 _)
    hb0 hb1 hb2 hb3]
  exact land_mask32_two_pow k _ (by omega)

lemma masked32_readback_128 (k : Nat) (v : List Nat) (hv : v.length = 16)
    (hb : ∀ b ∈ v, b < 256) (i : Nat) (hi : i < 4) :
    elem32At (_mm_and_si128 (_mm_set1_epi32 (mask32 (2 ^ k))) v) i =
      elem32At v i % 2 ^ k := by
  have hp : (_mm_set1_epi32 (mask32 (2 ^ k))).length = 16 :=
    length_set1_epi32_128 _
  have w0 := getD_zipWith_land (_mm_set1_epi32 (mask32 (2 ^ k))) v (4 * i)
    (by omega) (by omega)
  have w1 := getD_zipWith_land (_mm_set1_epi32 (mask32 (2 ^ k))) v (4 * i + 1)
    (by omega) (by omega)
  have w2 := getD_zipWith_land (_mm_set1_epi32 (mask32 (2 ^ k))) v (4 * i + 2)
    (by omega) (by omega)
  have w3 := getD_zipWith_land (_mm_set1_epi32 (mask32 (2 ^ k))) v (4 * i + 3)
    (by omega) (by omega)
  have p0 := (getD_set1_epi32_128 (mask32 (2 ^ k)) i 0 hi (by norm_num)).trans
    (bytesOfU32_getD_zero (mask32 (2 ^ k)))
  rw [Nat.add_zero] at p0
  have p1 := (getD_set1_epi32_128 (mask32 (2 ^ k)) i 1 hi (by norm_num)).trans
    (bytesOfU32_getD_one (mask32 (2 ^ k)))
  have p2 := (getD_set1_epi32_128 (mask32 (2 ^ k)) i 2 hi (by norm_num)).trans
    (bytesOfU32_getD_two (mask32 (2 ^ k)))
  have p3 := (getD_set1_epi32_128 (mask32 (2 ^ k)) i 3 hi (by norm_num)).trans
    (bytesOfU32_getD_three (mask32 (2 ^ k)))
  rw [p0] at w0
  rw [p1] at w1
  rw [p2] at w2
  rw [p3] at w3
  have hb0 := getD_lt_256 v hb (4 * i) (by omega)
  have hb1 := getD_lt_256 v hb (4 * i + 1) (by omega)
  have hb2 := getD_lt_256 v hb (4 * i + 2) (by omega)
  have hb3 := getD_lt_256 v hb (4 * i + 3) (by omega)
  simp only [elem32At, _mm_and_si128]
  rw [w0, w1, w2, w3]
  rw [land_digits_compose (mask32 (2 ^ k)) _ _ _ _ (mask32_lt_two_pow_32 _)
    hb0 hb1 hb2 hb3]
  exact land_mask32_two_pow k _ (by omega)

lemma masked32_wrap_vec_256 (k : Nat) (v w : List Nat)
    (hv : v.length = 32) (hw : w.length = 32)
    (hbv : ∀ b ∈ v, b < 256) (hbw : ∀ b ∈ w, b < 256)
    (hlane : ∀ i, i < 8 → elem32At w i = (elem32At v i + 2 ^ k) % 4294967296) :
    _mm256_and_si256 (_mm256_set1_epi32 (mask32 (2 ^ k))) w =
      _mm256_and_si256 (_mm256_set1_epi32 (mask32 (2 ^ k))) v := by
  have hlw : (_mm256_and_si256 (_mm256_set1_epi32 (mask32 (2 ^ k))) w).length = 32 := by
    simp [_mm256_and_si256, hw]
  have hlv : (_mm256_and_si256 (_mm256_set1_epi32 (mask32 (2 ^ k))) v).length = 32 := by
    simp [_mm256_and_si256, hv]
  have hlaneq : ∀ q, q < 8 →
      elem32At (_mm256_and_si256 (_mm256_set1_epi32 (mask32 (2 ^ k))) w) q =
        elem32At (_mm256_and_si256 (_mm256_set1_epi32 (mask32 (2 ^ k))) v) q := by
    intro q hq
    rw [masked32_readback_256 k w hw hbw q hq,
      masked32_readback_256 k v hv hbv q hq, hlane q hq,
      mod_wrap32 k (elem32At v q) (elem32At_lt v hbv q (by omega))]
  apply List.ext_getElem (by rw [hlw, hlv])
  intro n h1 h2
  have hn : n < 32 := by rw [hlw] at h1; exact h1
  rw [← List.getD_eq_getElem _ 0 h1, ← List.getD_eq_getElem _ 0 h2]
  obtain ⟨q, r, hq8, hr4, hnqr⟩ : ∃ q r, q < 8 ∧ r < 4 ∧ n = 4 * q + r :=
    ⟨n / 4, n % 4, by omega, by omega, by omega⟩
  subst hnqr
  have key := hlaneq q hq8
  simp only [elem32At] at key
  have uw0 : (_mm256_and_si256 (_mm256_set1_epi32 (mask32 (2 ^ k))) w).getD (4 * q) 0 < 256 :=
    lt_of_le_of_lt (getD_zipWith_land_le_right _ _ _) (getD_lt_256 w hbw _ (by omega))
  have uw1 : (_mm256_and_si256 (_mm256_set1_epi32 (mask32 (2 ^ k))) w).getD (4 * q + 1) 0 < 256 :=
    lt_of_le_of_lt (getD_zipWith_land_le_right _ _ _) (getD_lt_256 w hbw _ (by omega))
  have uw2 : (_mm256_and_si256 (_mm256_set1_epi32 (mask32 (2 ^ k))) w).getD (4 * q + 2) 0 < 256 :=
    lt_of_le_of_lt (getD_zipWith_land_le_right _ _ _) (getD_lt_256 w hbw _ (by omega))
  have uw3 : (_mm256_and_si256 (_mm256_set1_epi32 (mask32 (2 ^ k))) w).getD (4 * q + 3) 0 < 256 :=
    lt_of_le_of_lt (getD_zipWith_land_le_right _ _ _) (getD_lt_256 w hbw _ (by omega))
  have uv0 : (_mm256_and_si256 (_mm256_set1_epi32 (mask32 (2 ^ k))) v).getD (4 * q) 0 < 256 :=
    lt_of_le_of_lt (getD_zipWith_land_le_right _ _ _) (getD_lt_256 v hbv _ (by omega))
  have uv1 : (_mm256_and_si256 (_mm256_set1_epi32 (mask32 (2 ^ k))) v).getD (4 * q + 1) 0 < 256 :=
    lt_of_le_of_lt (getD_zipWith_land_le_right _ _ _) (getD_lt_256 v hbv _ (by omega))
  have uv2 : (_mm256_and_si256 (_mm256_set1_epi32 (mask32 (2 ^ k))) v).getD (4 * q + 2) 0 < 256 :=
    lt_of_le_of_lt (getD_zipWith_land_le_right _ _ _) (getD_lt_256 v hbv _ (by omega))
  have uv3 : (_mm256_and_si256 (_mm256_set1_epi32 (mask32 (2 ^ k))) v).getD (4 * q + 3) 0 < 256 :=
    lt_of_le_of_lt (getD_zipWith_land_le_right _ _ _) (getD_lt_256 v hbv _ (by omega))
  interval_cases r
  · rw [Nat.add_zero]
    omega
  · omega
  · omega
  · omega

lemma masked32_wrap_vec_128 (k : Nat) (v w : List Nat)
    (hv : v.length = 16) (hw : w.length = 16)
    (hbv : ∀ b ∈ v, b < 256) (hbw : ∀ b ∈ w, b < 256)
    (hlane : ∀ i, i < 4 → elem32At w i = (elem32At v i + 2 ^ k) % 4294967296) :
    _mm_and_si128 (_mm_set1_epi32 (mask32 (2 ^ k))) w =
      _mm_and_si128 (_mm_set1_epi32 (mask32 (2 ^ k))) v := by
  have hlw : (_mm_and_si128 (_mm_set1_epi32 (mask32 (2 ^ k))) w).length = 16 := by
    simp [_mm_and_si128, hw]
  have hlv : (_mm_and_si128 (_mm_set1_epi32 (mask32 (2 ^ k))) v).length = 16 := by
    simp [_mm_and_si128, hv]
  have hlaneq : ∀ q, q < 4 →
      elem32At (_mm_and_si128 (_mm_set1_epi32 (mask32 (2 ^ k))) w) q =
        elem32At (_mm_and_si128 (_mm_set1_epi32 (mask32 (2 ^ k))) v) q := by
    intro q hq
    rw [masked32_readback_128 k w hw hbw q hq,
      masked32_readback_128 k v hv hbv q hq, hlane q hq,
      mod_wrap32 k (elem32At v q) (elem32At_lt v hbv q (by omega))]
  apply List.ext_getElem (by rw [hlw, hlv])
  intro n h1 h2
  have hn : n < 16 := by rw [hlw] at h1; exact h1
  rw [← List.getD_eq_getElem _ 0 h1, ← List.getD_eq_getElem _ 0 h2]
  obtain ⟨q, r, hq4, hr4, hnqr⟩ : ∃ q r, q < 4 ∧ r < 4 ∧ n = 4 * q + r :=
    ⟨n / 4, n % 4, by omega, by omega, by omega⟩
  subst hnqr
  have key := hlaneq q hq4
  simp only [elem32At] at key
  have uw0 : (_mm_and_si128 (_mm_set1_epi32 (mask32 (2 ^ k))) w).getD (4 * q) 0 < 256 :=
    lt_of_le_of_lt (getD_zipWith_land_le_right _ _ _) (getD_lt_256 w hbw _ (by omega))
  have uw1 : (_mm_and_si128 (_mm_set1_epi32 (mask32 (2 ^ k))) w).getD (4 * q + 1) 0 < 256 :=
    lt_of_le_of_lt (getD_zipWith_land_le_right _ _ _) (getD_lt_256 w hbw _ (by omega))
  have uw2 : (_mm_and_si128 (_mm_set1_epi32 (mask32 (2 ^ k))) w).getD (4 * q + 2) 0 < 256 :=
    lt_of_le_of_lt (getD_zipWith_land_le_right _ _ _) (getD_lt_256 w hbw _ (by omega))
  have uw3 : (_mm_and_si128 (_mm_set1_epi32 (mask32 (2 ^ k))) w).getD (4 * q + 3) 0 < 256 :=
    lt_of_le_of_lt (getD_zipWith_land_le_right _ _ _) (getD_lt_256 w hbw _ (by omega))
  have uv0 : (_mm_and_si128 (_mm_set1_epi32 (mask32 (2 ^ k))) v).getD (4 * q) 0 < 256 :=
    lt_of_le_of_lt (getD_zipWith_land_le_right _ _ _) (getD_lt_256 v hbv _ (by omega))
  have uv1 : (_mm_and_si128 (_mm_set1_epi32 (mask32 (2 ^ k))) v).getD (4 * q + 1) 0 < 256 :=
    lt_of_le_of_lt (getD_zipWith_land_le_right _ _ _) (getD_lt_256 v hbv _ (by omega))
  have uv2 : (_mm_and_si128 (_mm_set1_epi32 (mask32 (2 ^ k))) v).getD (4 * q + 2) 0 < 256 :=
    lt_of_le_of_lt (getD_zipWith_land_le_right _ _ _) (getD_lt_256 v hbv _ (by omega))
  have uv3 : (_mm_and_si128 (_mm_set1_epi32 (mask32 (2 ^ k))) v).getD (4 * q + 3) 0 < 256 :=
    lt_of_le_of_lt (getD_zipWith_land_le_right _ _ _) (getD_lt_256 v hbv _ (by omega))
  interval_cases r
  · rw [Nat.add_zero]
    omega
  · omega
  · omega
  · omega

/-- C4: for every power-of-two `VALUE_BOUND` and every input vector, every
lane value a masked-store wrapper writes into the sequence is strictly
below `VALUE_BOUND` — every written byte for the byte-lane stores, and
every written little-endian 4-byte element for the u32-lane stores. -/
theorem masked_store_values_lt_bound (V k : Nat) (hV : V = 2 ^ k) :
    (∀ (s : BoundedSlice) (start : Nat) (v : List Nat), v.length = 32 →
      start + 32 ≤ s.bytes.length → ∀ i, i < 32 →
      (_mm256_store_masked_u8 V s start v).bytes.getD (start + i) 0 < V) ∧
    (∀ (s : BoundedSlice) (start : Nat) (v : List Nat), v.length = 32 →
      4 * start + 32 ≤ s.bytes.length → ∀ i, i < 8 →
      elem32At (_mm256_store_masked_u32 V s start v).bytes (start + i) < V) ∧
    (∀ (s : BoundedSlice) (start : Nat) (v : List Nat), v.length = 16 →
      start + 16 ≤ s.bytes.length → ∀ i, i < 16 →
      (_mm_store_masked_u8 V s start v).bytes.getD (start + i) 0 < V) ∧
    (∀ (s : BoundedSlice) (start : Nat) (v : List Nat), v.length = 16 →
      4 * start + 16 ≤ s.bytes.length → ∀ i, i < 4 →
      elem32At (_mm_store_masked_u32 V s start v).bytes (start + i) < V) := by
  have hV1 : 1 ≤ V := hV ▸ Nat.one_le_two_pow
  refine ⟨?_, ?_, ?_, ?_⟩
  · intro s start v hv hlen i hi
    have hw : (_mm256_and_si256 (_mm256_set1_epi8 (mask8 V)) v).length = 32 := by
      simp [_mm256_and_si256, _mm256_set1_epi8, hv]
    simp only [_mm256_store_masked_u8, BoundedSlice.get_slice]
    rw [getD_writeBytes_inside _ _ _ _ (by omega) (by omega)]
    have hle := getD_zipWith_land_le (_mm256_set1_epi8 (mask8 V)) v i
    have hrep : (_mm256_set1_epi8 (mask8 V)).getD i 0 = mask8 V :=
      getD_replicate_lt 32 (mask8 V) i hi
    rw [hrep] at hle
    have hm : mask8 V < V := mask8_lt V hV1
    show (List.zipWith Nat.land (_mm256_set1_epi8 (mask8 V)) v).getD i 0 < V
    omega
  · intro s start v hv hlen i hi
    have hw : (_mm256_and_si256 (_mm256_set1_epi32 (mask32 V)) v).length = 32 := by
      simp [_mm256_and_si256, hv]
    simp only [_mm256_store_masked_u32, BoundedSlice.get_slice, elem32At]
    rw [show 4 * (start + i) = 4 * start + 4 * i from by ring]
    rw [show 4 * start + 4 * i + 1 = 4 * start + (4 * i + 1) from by ring,
      show 4 * start + 4 * i + 2 = 4 * start + (4 * i + 2) from by ring,
      show 4 * start + 4 * i + 3 = 4 * start + (4 * i + 3) from by ring]
    rw [getD_writeBytes_inside _ _ _ _ (by omega) (by omega),
      getD_writeBytes_inside _ _ _ _ (by omega) (by omega),
      getD_writeBytes_inside _ _ _ _ (by omega) (by omega),
      getD_writeBytes_inside _ _ _ _ (by omega) (by omega)]
    exact masked32_lane_lt_256 V hV1 v i hi
  · intro s start v hv hlen i hi
    have hw : (_mm_and_si128 (_mm_set1_epi8 (mask8 V)) v).length = 16 := by
      simp [_mm_and_si128, _mm_set1_epi8, hv]
    simp only [_mm_store_masked_u8, BoundedSlice.get_slice]
    rw [getD_writeBytes_inside _ _ _ _ (by omega) (by omega)]
    have hle := getD_zipWith_land_le (_mm_set1_epi8 (mask8 V)) v i
    have hrep : (_mm_set1_epi8 (mask8 V)).getD i 0 = mask8 V :=
      getD_replicate_lt 16 (mask8 V) i hi
    rw [hrep] at hle
    have hm : mask8 V < V := mask8_lt V hV1
    show (List.zipWith Nat.land (_mm_set1_epi8 (mask8 V)) v).getD i 0 < V
    omega
  · intro s start v hv hlen i hi
    have hw : (_mm_and_si128 (_mm_set1_epi32 (mask32 V)) v).length = 16 := by
      simp [_mm_and_si128, hv]
    simp only [_mm_store_masked_u32, BoundedSlice.get_slice, elem32At]
    rw [show 4 * (start + i) = 4 * start + 4 * i from by ring]
    rw [show 4 * start + 4 * i + 1 = 4 * start + (4 * i + 1) from by ring,
      show 4 * start + 4 * i + 2 = 4 * start + (4 * i + 2) from by ring,
      show 4 * start + 4 * i + 3 = 4 * start + (4 * i + 3) from by ring]
    rw [getD_writeBytes_inside _ _ _ _ (by omega) (by omega),
      getD_writeBytes_inside _ _ _ _ (by omega) (by omega),
      getD_writeBytes_inside _ _ _ _ (by omega) (by omega),
      getD_writeBytes_inside _ _ _ _ (by omega) (by omega)]
    exact masked32_lane_lt_128 V hV1 v i hi

/-- Witness for C4: a concrete masked byte store with `VALUE_BOUND = 16`
stores a value below 16 even though the input lane is 200. -/
theorem masked_store_values_lt_bound_witness :
    (_mm256_store_masked_u8 16 (BoundedSlice.mk (List.replicate 64 0) 64) 0
      (List.replicate 32 200)).bytes.getD (0 + 0) 0 < 16 :=
  (masked_store_values_lt_bound 16 4 (by norm_num)).1
    (BoundedSlice.mk (List.replicate 64 0) 64) 0 (List.replicate 32 200)
    (by simp) (by simp) 0 (by norm_num)

/-- C5: every masked store with power-of-two bound `B` stores
`v AND (B-1) = v mod B` for each lane (wraparound, not saturation):
reading back the stored lane yields the input lane modulo `B`, and
storing `v` and `v + B` (with the lane's own wraparound: 8-bit for the
byte-lane wrappers, 32-bit for the u32-lane wrappers) produce identical
stored bytes — for all four masked-store wrappers. -/
theorem masked_store_wraps_mod_bound (V k : Nat) (hV : V = 2 ^ k) :
    (∀ (s : BoundedSlice) (start : Nat) (v : List Nat), v.length = 32 →
      start + 32 ≤ s.bytes.length → (∀ b ∈ v, b < 256) →
      (∀ i, i < 32 →
        (_mm256_store_masked_u8 V s start v).bytes.getD (start + i) 0 =
          v.getD i 0 % V) ∧
      _mm256_store_masked_u8 V s start (v.map fun b => (b + V) % 256) =
        _mm256_store_masked_u8 V s start v) ∧
    (∀ (s : BoundedSlice) (start : Nat) (v : List Nat), v.length = 16 →
      start + 16 ≤ s.bytes.length → (∀ b ∈ v, b < 256) →
      (∀ i, i < 16 →
        (_mm_store_masked_u8 V s start v).bytes.getD (start + i) 0 =
          v.getD i 0 % V) ∧
      _mm_store_masked_u8 V s start (v.map fun b => (b + V) % 256) =
        _mm_store_masked_u8 V s start v) ∧
    (∀ (s : BoundedSlice) (start : Nat) (v : List Nat), v.length = 32 →
      4 * start + 32 ≤ s.bytes.length → (∀ b ∈ v, b < 256) →
      (∀ i, i < 8 →
        elem32At (_mm256_store_masked_u32 V s start v).bytes (start + i) =
          elem32At v i % V) ∧
      (∀ w : List Nat, w.length = 32 → (∀ b ∈ w, b < 256) →
        (∀ i, i < 8 → elem32At w i = (elem32At v i + V) % 4294967296) →
        _mm256_store_masked_u32 V s start w =
          _mm256_store_masked_u32 V s start v)) ∧
    (∀ (s : BoundedSlice) (start : Nat) (v : List Nat), v.length = 16 →
      4 * start + 16 ≤ s.bytes.length → (∀ b ∈ v, b < 256) →
      (∀ i, i < 4 →
        elem32At (_mm_store_masked_u32 V s start v).bytes (start + i) =
          elem32At v i % V) ∧
      (∀ w : List Nat, w.length = 16 → (∀ b ∈ w, b < 256) →
        (∀ i, i < 4 → elem32At w i = (elem32At v i + V) % 4294967296) →
        _mm_store_masked_u32 V s start w =
          _mm_store_masked_u32 V s start v)) := by
  subst hV
  refine ⟨?_, ?_, ?_, ?_⟩
  · intro s start v hv hlen hb
    have hw : (_mm256_and_si256 (_mm256_set1_epi8 (mask8 (2 ^ k))) v).length = 32 := by
      simp [_mm256_and_si256, _mm256_set1_epi8, hv]
    constructor
    · intro i hi
      simp only [_mm256_store_masked_u8, BoundedSlice.get_slice]
      rw [getD_writeBytes_inside _ _ _ _ (by omega) (by omega)]
      show (List.zipWith Nat.land (List.replicate 32 (mask8 (2 ^ k))) v).getD i 0 =
        v.getD i 0 % 2 ^ k
      exact masked8_store_core k 32 v hv hb i hi
    · simp only [_mm256_store_masked_u8, BoundedSlice.get_slice,
        _mm256_and_si256, _mm256_set1_epi8]
      rw [masked8_wrap_core k 32 v hv hb]
  · intro s start v hv hlen hb
    have hw : (_mm_and_si128 (_mm_set1_epi8 (mask8 (2 ^ k))) v).length = 16 := by
      simp [_mm_and_si128, _mm_set1_epi8, hv]
    constructor
    · intro i hi
      simp only [_mm_store_masked_u8, BoundedSlice.get_slice]
      rw [getD_writeBytes_inside _ _ _ _ (by omega) (by omega)]
      show (List.zipWith Nat.land (List.replicate 16 (mask8 (2 ^ k))) v).getD i 0 =
        v.getD i 0 % 2 ^ k
      exact masked8_store_core k 16 v hv hb i hi
    · simp only [_mm_store_masked_u8, BoundedSlice.get_slice,
        _mm_and_si128, _mm_set1_epi8]
      rw [masked8_wrap_core k 16 v hv hb]
  · intro s start v hv hlen hb
    have hw : (_mm256_and_si256 (_mm256_set1_epi32 (mask32 (2 ^ k))) v).length = 32 := by
      simp [_mm256_and_si256, hv]
    constructor
    · intro i hi
      simp only [_mm256_store_masked_u32, BoundedSlice.get_slice, elem32At]
      rw [show 4 * (start + i) = 4 * start + 4 * i from by ring]
      rw [show 4 * start + 4 * i + 1 = 4 * start + (4 * i + 1) from by ring,
        show 4 * start + 4 * i + 2 = 4 * start + (4 * i + 2) from by ring,
        show 4 * start + 4 * i + 3 = 4 * start + (4 * i + 3) from by ring]
      rw [getD_writeBytes_inside _ _ _ _ (by omega) (by omega),
        getD_writeBytes_inside _ _ _ _ (by omega) (by omega),
        getD_writeBytes_inside _ _ _ _ (by omega) (by omega),
        getD_writeBytes_inside _ _ _ _ (by omega) (by omega)]
      have hr := masked32_readback_256 k v hv hb i hi
      simp only [elem32At] at hr
      exact hr
    · intro w hwlen hbw hlane
      simp only [_mm256_store_masked_u32, BoundedSlice.get_slice]
      rw [masked32_wrap_vec_256 k v w hv hwlen hb hbw hlane]
  · intro s start v hv hlen hb
    have hw : (_mm_and_si128 (_mm_set1_epi32 (mask32 (2 ^ k))) v).length = 16 := by
      simp [_mm_and_si128, hv]
    constructor
    · intro i hi
      simp only [_mm_store_masked_u32, BoundedSlice.get_slice, elem32At]
      rw [show 4 * (start + i) = 4 * start + 4 * i from by ring]
      rw [show 4 * start + 4 * i + 1 = 4 * start + (4 * i + 1) from by ring,
        show 4 * start + 4 * i + 2 = 4 * start + (4 * i + 2) from by ring,
        show 4 * start + 4 * i + 3 = 4 * start + (4 * i + 3) from by ring]
      rw [getD_writeBytes_inside _ _ _ _ (by omega) (by omega),
        getD_writeBytes_inside _ _ _ _ (by omega) (by omega),
        getD_writeBytes_inside _ _ _ _ (by omega) (by omega),
        getD_writeBytes_inside _ _ _ _ (by omega) (by omega)]
      have hr := masked32_readback_128 k v hv hb i hi
      simp only [elem32At] at hr
      exact hr
    · intro w hwlen hbw hlane
      simp only [_mm_store_masked_u32, BoundedSlice.get_slice]
      rw [masked32_wrap_vec_128 k v w hv hwlen hb hbw hlane]

/-- Witness for C5: the spec's concrete scenario — masked byte store with
bound 16 and input lane 200 stores `200 mod 16 = 8`. -/
theorem masked_store_wraps_mod_bound_witness :
    (_mm256_store_masked_u8 16 (BoundedSlice.mk (List.replicate 64 0) 64) 0
      (List.replicate 32 200)).bytes.getD (0 + 0) 0 =
      (List.replicate 32 200).getD 0 0 % 16 :=
  (((masked_store_wraps_mod_bound 16 4 (by norm_num)).1
    (BoundedSlice.mk (List.replicate 64 0) 64) 0 (List.replicate 32 200)
    (by simp) (by simp) (by decide)).1) 0 (by norm_num)

/-- C10: the byte-lane mask constant is the wrapping narrowing of
`VALUE_BOUND - 1` to 8 bits: at `VALUE_BOUND = 256` it is 255 (all ones),
the masked byte store degenerates to the unmasked store of each input
byte, the stored values are still below 256, and for every power of two
up to 256 the narrowed mask equals `VALUE_BOUND - 1` modulo `2^8`. -/
theorem mask8_boundary_256 :
    mask8 256 = 255 ∧
    (∀ k, k ≤ 8 → mask8 (2 ^ k) = (2 ^ k - 1) % 256) ∧
    (∀ b, Nat.land (mask8 256) b < 256) ∧
    (∀ (s : BoundedSlice) (start : Nat) (v : List Nat), v.length = 32 →
      (∀ b ∈ v, b < 256) →
      _mm256_store_masked_u8 256 s start v = _mm256_store 1 s start v) ∧
    (∀ (s : BoundedSlice) (start : Nat) (v : List Nat), v.length = 16 →
      (∀ b ∈ v, b < 256) →
      _mm_store_masked_u8 256 s start v = _mm_store 1 s start v) := by
  have hland : ∀ b, b < 256 → Nat.land (mask8 256) b = b := by
    intro b hb
    have h256 : mask8 256 = mask8 (2 ^ 8) := by norm_num
    rw [h256, land_mask8_two_pow 8 b hb]
    have h8 : (2 : Nat) ^ 8 = 256 := by norm_num
    rw [h8, Nat.mod_eq_of_lt hb]
  refine ⟨by decide, ?_, ?_, ?_, ?_⟩
  · intro k hk
    rw [mask8_two_pow_le k hk]
    have h2 : (2 : Nat) ^ k ≤ 256 := by
      calc (2 : Nat) ^ k ≤ 2 ^ 8 := Nat.pow_le_pow_right (by norm_num) hk
        _ = 256 := by norm_num
    rw [Nat.mod_eq_of_lt (by omega)]
  · intro b
    have h1 : Nat.land (mask8 256) b ≤ mask8 256 := Nat.and_le_left
    have h2 : mask8 256 = 255 := by decide
    omega
  · intro s start v hv hb
    have hmv : _mm256_and_si256 (_mm256_set1_epi8 (mask8 256)) v = v := by
      show List.zipWith Nat.land (List.replicate 32 (mask8 256)) v = v
      rw [zipWith_land_replicate, List.take_of_length_le (by omega)]
      have h2 : v.map (fun b => Nat.land (mask8 256) b) = v.map (fun b => b) :=
        List.map_congr_left (fun b hbv => hland b (hb b hbv))
      rw [h2]
      exact List.map_id' v
    simp only [_mm256_store_masked_u8, _mm256_store, BoundedSlice.get_slice,
      hmv, one_mul]
  · intro s start v hv hb
    have hmv : _mm_and_si128 (_mm_set1_epi8 (mask8 256)) v = v := by
      show List.zipWith Nat.land (List.replicate 16 (mask8 256)) v = v
      rw [zipWith_land_replicate, List.take_of_length_le (by omega)]
      have h2 : v.map (fun b => Nat.land (mask8 256) b) = v.map (fun b => b) :=
        List.map_congr_left (fun b hbv => hland b (hb b hbv))
      rw [h2]
      exact List.map_id' v
    simp only [_mm_store_masked_u8, _mm_store, BoundedSlice.get_slice,
      hmv, one_mul]

/-- Witness for C10: at the power of two `2^4 = 16` the narrowed mask is
`15 mod 256`. -/
theorem mask8_boundary_256_witness :
    mask8 (2 ^ 4) = (2 ^ 4 - 1) % 256 :=
  mask8_boundary_256.2.1 4 (by norm_num)
